import Mathlib

/-!
# Verification of the TTS chunked-audio pipeline (`src/server.js`)

A shallow embedding of the chunking-and-reassembly pipeline of the TTS
server.  Text is modelled as `List Char` (JavaScript strings are sequences
of code units; all claims are about character counts and positions), audio
byte buffers as `List Nat`, and the external collaborators (the OpenAI
speech endpoint and the FFmpeg concatenation subprocess) as oracle
parameters.  The server's `while` loop over `start` is embedded with an
explicit fuel argument equal to the text length; `chunksAux_fuel_stable`
proves the fuel never runs out when the chunk size is positive, which is
exactly the termination argument of the source loop.
-/

namespace TTS

/-- JavaScript `String.prototype.lastIndexOf(c, fromIdx)` restricted to a
single-character needle, embedded over `List Char`: the largest index
`i ≤ fromIdx` with `s[i] = c`, or `-1` when there is none.  The `fromIdx`
position itself is searched (JS `lastIndexOf`'s `fromIndex` is inclusive),
and a `fromIdx` past the end of the string searches the whole string. -/
def lastIndexOfAux (s : List Char) (c : Char) : Nat → Int
  | 0 => if s.get? 0 = some c then 0 else -1
  | i + 1 => if s.get? (i + 1) = some c then ((i + 1 : Nat) : Int) else lastIndexOfAux s c i

/-- `text.lastIndexOf('.', fromIdx)` as used by the chunk-splitting loop. -/
def lastIndexOf (s : List Char) (c : Char) (fromIdx : Nat) : Int :=
  lastIndexOfAux s c fromIdx

/-- One iteration of the chunk-splitting loop of `GET /generate-audio-stream`
(src/server.js lines 96-105): the cut point chosen for the chunk starting at
`start`.  `end` starts at `start + L`; when that lies strictly before the end
of the text, the loop looks for the last `'.'` at or before `end` and, when it
lies strictly after `start`, cuts immediately after that period. -/
def chunkStep (text : List Char) (L start : Nat) : Nat :=
  let e := start + L
  if e < text.length then
    let punctuationIndex := lastIndexOf text '.' e
    if punctuationIndex > (start : Int) then punctuationIndex.toNat + 1 else e
  else e

/-- The chunk-splitting `while (start < text.length)` loop of
src/server.js lines 94-106, with an explicit fuel bounding the number of
iterations.  Each iteration pushes `text.slice(start, end)` (embedded as
`take (end - start) (drop start)`, which has the same clamping behaviour)
and advances `start` to `end`.  `chunksAux_fuel_stable` shows fuel
`text.length - start` is always enough when `0 < L`. -/
def chunksAux (text : List Char) (L : Nat) : Nat → Nat → List (List Char)
  | 0, _ => []
  | fuel + 1, start =>
    if start < text.length then
      (text.drop start).take (chunkStep text L start - start) ::
        chunksAux text L fuel (chunkStep text L start)
    else []

/-- `split(text, L)`: the chunk-splitting loop run from `start = 0`.  The
server instantiates `L` with `chunkSize = 4000`. -/
def split (text : List Char) (L : Nat) : List (List Char) :=
  chunksAux text L text.length 0

/-- The fixed chunk size of the server (src/server.js line 93). -/
def chunkSize : Nat := 4000

/-! ## The SSE event stream, temporary files, and the job pipeline -/

/-- One server-sent event written to the progress channel: a status update,
an error payload `{"error": ...}`, or the final result payload
`{"title": ..., "audioBase64": ...}`.  The base64 rendering of the final
buffer is abstracted: the event carries the raw bytes of the concatenated
file (`base64` is an injective re-encoding that no claim inspects). -/
inductive Event where
  | status (msg : String)
  | error (msg : String)
  | result (title : String) (audioBytes : List Nat)
  deriving DecidableEq, Repr

/-- `true` on a `status` event. -/
def Event.isStatus : Event → Bool
  | .status _ => true
  | _ => false

/-- `true` on a terminal event (`error` or `result`). -/
def Event.isTerminal : Event → Bool
  | .status _ => false
  | _ => true

/-- The temporary paths the job touches under `tmpdir()`: the per-chunk
segment files `chunk_${i}.mp3`, the FFmpeg manifest `filelist.txt`, and the
output `concatenated_${now}.mp3` (src/server.js lines 134, 141, 145).
Keying the file-system model by this type records exactly the path strings
the server builds; distinct constructors/indices render to distinct path
strings (the decimal rendering of an index is injective). -/
inductive TPath where
  | chunk (i : Nat)
  | filelist
  | concatenated (now : Nat)
  deriving DecidableEq, Repr

/-- The path string a `TPath` stands for, with `tmpdir()` fixed to `/tmp`. -/
def TPath.render : TPath → String
  | .chunk i => "/tmp/chunk_" ++ toString i ++ ".mp3"
  | .filelist => "/tmp/filelist.txt"
  | .concatenated now => "/tmp/concatenated_" ++ toString now ++ ".mp3"

/-- Contents of a temporary file: audio bytes or the manifest text. -/
inductive FileData where
  | bytes (b : List Nat)
  | text (s : String)
  deriving DecidableEq, Repr

/-- The scratch file system: an association list from paths to contents. -/
abbrev FS := List (TPath × FileData)

/-- `fs.writeFileSync`: create or overwrite. -/
def fsWrite (fs : FS) (p : TPath) (d : FileData) : FS :=
  (p, d) :: fs.filter (fun e => e.1 ≠ p)

/-- `fs.readFileSync`, as a partial lookup. -/
def fsRead (fs : FS) (p : TPath) : Option FileData :=
  (fs.find? (fun e => e.1 = p)).map (·.2)

/-- `fs.unlinkSync`. -/
def fsUnlink (fs : FS) (p : TPath) : FS :=
  fs.filter (fun e => e.1 ≠ p)

/-- The JSON body of one `fetch` to the OpenAI speech endpoint
(src/server.js lines 121-125).  The object built by the server has exactly
the keys `model`, `voice`, `input`; `instructions` records a possible
free-form style-directive key, which the server never includes
(`instructions = none` in every request it builds). -/
structure TTSRequestBody where
  model : String
  voice : String
  input : List Char
  instructions : Option String
  deriving DecidableEq, Repr

/-- The synthesis provider: one HTTPS call per chunk.  `Except.error`
models a transport failure or a non-`ok` response (either way the handler
throws); `Except.ok` carries the response's audio bytes. -/
abbrev Provider := TTSRequestBody → Except String (List Nat)

/-- Which models accept free-form style directives.  Modelled from the
front-end (the unnamed `index.html` variant shows the advanced
custom-instructions panel exactly when the selected model is
`gpt-4o-mini-tts`, and clears it for every other model) and §4.2 of the
design notes. -/
def supportsStyleDirectives (m : String) : Bool := m = "gpt-4o-mini-tts"

/-- `voice || 'alloy'` (src/server.js line 123): an absent or empty (falsy)
voice falls back to `'alloy'`. -/
def effVoice : Option String → String
  | none => "alloy"
  | some s => if s = "" then "alloy" else s

/-- The request body the synthesis loop builds for one chunk:
`{ model: 'tts-1', voice: voice || 'alloy', input: chunk }`. -/
def mkTTSBody (voice : Option String) (chunk : List Char) : TTSRequestBody :=
  ⟨"tts-1", effVoice voice, chunk, none⟩

/-- The per-chunk synthesis loop (src/server.js lines 110-137), processing
the chunks left in `chs` with `i` chunks already done out of `total`.
Returns the status events written, the request bodies sent to the provider
(in order), the file system after the loop, the `tempFiles` list in push
order, and `some errMsg` when a call failed (the loop throws: no further
chunk is processed, the failing chunk writes no file). -/
def synthLoop (provider : Provider) (voice : Option String) :
    List (List Char) → Nat → Nat → FS →
      List Event × List TTSRequestBody × FS × List TPath × Option String
  | [], _, _, fs => ([], [], fs, [], none)
  | ch :: rest, i, total, fs =>
    match provider (mkTTSBody voice ch) with
    | .error e =>
        ([.status ("Generating audio for chunk " ++ toString (i + 1) ++ " of " ++
            toString total)],
          [mkTTSBody voice ch], fs, [], some e)
    | .ok buf =>
        let r := synthLoop provider voice rest (i + 1) total
          (fsWrite fs (.chunk i) (.bytes buf))
        (Event.status ("Generating audio for chunk " ++ toString (i + 1) ++ " of " ++
            toString total) :: r.1,
          mkTTSBody voice ch :: r.2.1, r.2.2.1, TPath.chunk i :: r.2.2.2.1, r.2.2.2.2)

/-- The manifest lines `file '<path>'`, one per temp file, in `tempFiles`
order (src/server.js line 142). -/
def manifestLines (temps : List TPath) : List String :=
  temps.map (fun p => "file \x27" ++ p.render ++ "\x27")

/-- A job as stored in the registry by `POST /initiate-audio-generation`
(src/server.js line 48): exactly the destructured fields
`{ title, text, voice }` — any `model` or `styleInstructions` field of the
request body is not stored. -/
structure StoredJob where
  title : String
  text : List Char
  voice : Option String
  deriving DecidableEq, Repr

/-- Everything observable about one run of the try/catch body of
`GET /generate-audio-stream` for a claimed job: the events written to the
channel, the final scratch file system, the provider request bodies sent,
the `tempFiles` list, how many times FFmpeg was spawned, and whether
`res.end()` was reached (it is, on every path). -/
structure RunResult where
  events : List Event
  fs : FS
  requests : List TTSRequestBody
  tempFiles : List TPath
  ffmpegCalls : Nat
  ended : Bool
  deriving DecidableEq

/-- The try/catch body of `GET /generate-audio-stream`
(src/server.js lines 90-185) for a job already claimed from the registry.
`ffmpegRes` is the FFmpeg oracle: `.ok out` is exit code 0 with `out` the
bytes of the concatenated file; `.error` a nonzero exit (no output file is
produced, the promise rejects and the catch block runs).  `now` is the
`Date.now()` used in the output file name.  On any thrown error the catch
block writes the single error event and ends the stream — note that it
performs no file cleanup. -/
def runJob (job : StoredJob) (provider : Provider)
    (ffmpegRes : Except String (List Nat)) (now : Nat) (fs0 : FS) : RunResult :=
  let chunks := split job.text chunkSize
  let r := synthLoop provider job.voice chunks 0 chunks.length fs0
  let evs0 := Event.status "Splitting text into chunks..." :: r.1
  match r.2.2.2.2 with
  | some _ =>
      ⟨evs0 ++ [.error "Failed to generate audio."], r.2.2.1, r.2.1, r.2.2.2.1, 0, true⟩
  | none =>
      let temps := r.2.2.2.1
      let evs1 := evs0 ++ [.status "Concatenating audio files..."]
      let fs2 := fsWrite r.2.2.1 .filelist (.text (String.intercalate "\n" (manifestLines temps)))
      match ffmpegRes with
      | .error _ =>
          ⟨evs1 ++ [.error "Failed to generate audio."], fs2, r.2.1, temps, 1, true⟩
      | .ok out =>
          let fs3 := fsWrite fs2 (.concatenated now) (.bytes out)
          let fs4 := fsUnlink (fsUnlink (temps.foldl fsUnlink fs3) .filelist) (.concatenated now)
          ⟨evs1 ++ [.status "Audio generated successfully.", .result job.title out],
            fs4, r.2.1, temps, 1, true⟩

/-! ## The two endpoints -/

/-- The in-memory request registry `const requests = new Map()`
(src/server.js line 32), as an association list keyed by `requestId`. -/
abbrev Registry := List (String × StoredJob)

/-- `requests.get(id)`. -/
def regGet (m : Registry) (k : String) : Option StoredJob :=
  (m.find? (fun e => e.1 = k)).map (·.2)

/-- `requests.set(id, job)`. -/
def regSet (m : Registry) (k : String) (v : StoredJob) : Registry :=
  (k, v) :: m.filter (fun e => e.1 ≠ k)

/-- `requests.delete(id)`. -/
def regDelete (m : Registry) (k : String) : Registry :=
  m.filter (fun e => e.1 ≠ k)

/-- The JSON body of a `POST /initiate-audio-generation` request.  `none`
models an absent field; the handler destructures only `title`, `text` and
`voice`, so `model` and `styleInstructions` are carried here to show they
are ignored. -/
structure SubmitBody where
  title : Option String
  text : Option (List Char)
  voice : Option String
  model : Option String
  styleInstructions : Option String
  deriving DecidableEq, Repr

/-- JavaScript falsiness of a possibly-absent string (`!title`): absent or
empty. -/
def falsyS : Option String → Bool
  | none => true
  | some s => s = ""

/-- JavaScript falsiness of the possibly-absent text. -/
def falsyT : Option (List Char) → Bool
  | none => true
  | some t => t.isEmpty

/-- Outcome of `POST /initiate-audio-generation`: 400 with an error JSON, or
200 with `{ requestId }`. -/
inductive InitResult where
  | error400 (msg : String)
  | ok (requestId : String)
  deriving DecidableEq, Repr

/-- `POST /initiate-audio-generation` (src/server.js lines 39-52): validate
`title`/`text`, store `{ title, text, voice }` under a fresh `requestId`
(the id generation `Date.now() + random` is abstracted as the parameter
`reqId`), and return the id. -/
def initiateAudioGeneration (body : SubmitBody) (reqId : String) (m : Registry) :
    InitResult × Registry :=
  if falsyS body.title || falsyT body.text then
    (.error400 "Title and text are required.", m)
  else
    (.ok reqId,
      regSet m reqId ⟨body.title.getD "", body.text.getD [], body.voice⟩)

/-- Everything observable about one `GET /generate-audio-stream` request:
the HTTP status explicitly set by `writeHead` on the guard paths (`none`
when the SSE headers are used instead), the events written, whether the
response was ended, the registry afterwards, and the run observables (file
system, provider requests, FFmpeg spawns). -/
structure StreamOutcome where
  httpStatus : Option Nat
  events : List Event
  ended : Bool
  registry : Registry
  fs : FS
  requests : List TTSRequestBody
  ffmpegCalls : Nat
  deriving DecidableEq

/-- `GET /generate-audio-stream` (src/server.js lines 61-186).  The guard
`if (!requestId)` (line 63) is JS falsiness: it fires both for an absent
`requestId` and for an empty-string one (the wire-reachable `?requestId=`),
writing a 400 and one error event; a non-empty id not in the registry
writes a 404 and one error event; otherwise the job is removed from the
registry and the try/catch body runs on it.  The guard paths invoke
neither the provider nor FFmpeg. -/
def generateAudioStream (requestId : Option String) (m : Registry)
    (provider : Provider) (ffmpegRes : Except String (List Nat)) (now : Nat)
    (fs0 : FS) : StreamOutcome :=
  if falsyS requestId then
    ⟨some 400, [.error "requestId parameter is required."], true, m, fs0, [], 0⟩
  else
    match regGet m (requestId.getD "") with
    | none =>
        ⟨some 404, [.error "No data found for the given requestId."], true, m, fs0, [], 0⟩
    | some job =>
        let m1 := regDelete m (requestId.getD "")
        let r := runJob job provider ffmpegRes now fs0
        ⟨none, r.events, r.ended, m1, r.fs, r.requests, r.ffmpegCalls⟩

/-! ## Theorems about the chunk splitter -/

-- Sanity checks of the embedding on concrete inputs.
example : split ['a', '.', 'b'] 1 = [['a', '.'], ['b']] := by decide
example : split ['a', 'b', '.', 'c'] 2 = [['a', 'b', '.'], ['c']] := by decide
example : split ['a', 'b', 'c'] 2 = [['a', 'b'], ['c']] := by decide
example : split [] 5 = [] := by decide
example : split ['x', '.', 'y', 'z', 'w'] 3 = [['x', '.'], ['y', 'z', 'w']] := by decide

/-- The result of `lastIndexOf` never exceeds the `fromIdx` it was given. -/
theorem lastIndexOfAux_le (s : List Char) (c : Char) (i : Nat) :
    lastIndexOfAux s c i ≤ (i : Int) := by
  induction i with
  | zero =>
      unfold lastIndexOfAux
      split <;> simp
  | succ j ih =>
      unfold lastIndexOfAux
      split
      · exact le_refl _
      · exact le_trans ih (by exact_mod_cast Nat.le_succ j)

/-- The cut point always lies strictly after the chunk's start when the
chunk size is positive: the loop makes progress on every iteration. -/
theorem chunkStep_gt (text : List Char) (L start : Nat) (hL : 0 < L)
    (hs : start < text.length) : start < chunkStep text L start := by
  unfold chunkStep
  simp only
  split
  · split
    · rename_i hpi
      have h0 : (0 : Int) ≤ (start : Int) := Int.ofNat_nonneg start
      have : (start : Int) < ((lastIndexOf text '.' (start + L)).toNat : Int) := by
        rw [Int.toNat_of_nonneg (le_of_lt (lt_of_le_of_lt h0 hpi))]
        exact hpi
      have : start < (lastIndexOf text '.' (start + L)).toNat := by exact_mod_cast this
      omega
    · omega
  · omega

/-- The cut point never lies more than `L + 1` past the chunk's start
(it can reach `start + L + 1` because JS `lastIndexOf`'s `fromIndex` is
inclusive, so a period exactly at `start + L` is still found). -/
theorem chunkStep_le (text : List Char) (L start : Nat) :
    chunkStep text L start ≤ start + L + 1 := by
  unfold chunkStep
  simp only
  split
  · split
    · rename_i hpi
      have hle : lastIndexOf text '.' (start + L) ≤ ((start + L : Nat) : Int) :=
        lastIndexOfAux_le text '.' (start + L)
      have : (lastIndexOf text '.' (start + L)).toNat ≤ start + L := Int.toNat_le.mpr hle
      omega
    · omega
  · omega

/-- When the whole text is already consumed the loop body never runs. -/
theorem chunksAux_of_le (text : List Char) (L : Nat) (fuel start : Nat)
    (h : text.length ≤ start) : chunksAux text L fuel start = [] := by
  cases fuel with
  | zero => rfl
  | succ f => unfold chunksAux; rw [if_neg (by omega)]

/-- Any two sufficient fuels produce the same chunk list: the loop completes
within `text.length - start` iterations because `start` strictly increases. -/
theorem chunksAux_fuel_stable (text : List Char) (L : Nat) (hL : 0 < L) :
    ∀ f₁ f₂ start, text.length - start ≤ f₁ → text.length - start ≤ f₂ →
      chunksAux text L f₁ start = chunksAux text L f₂ start := by
  intro f₁
  induction f₁ with
  | zero =>
      intro f₂ start h1 _
      rw [chunksAux_of_le text L 0 start (by omega),
        chunksAux_of_le text L f₂ start (by omega)]
  | succ f ih =>
      intro f₂ start h1 h2
      by_cases hs : start < text.length
      · cases f₂ with
        | zero => omega
        | succ g =>
            unfold chunksAux
            rw [if_pos hs, if_pos hs]
            have hgt := chunkStep_gt text L start hL hs
            have htail := ih g (chunkStep text L start) (by omega) (by omega)
            rw [htail]
      · rw [chunksAux_of_le text L (f + 1) start (by omega),
          chunksAux_of_le text L f₂ start (by omega)]

/-- Concatenating the chunks produced from offset `start` onward yields the
text from `start` onward: the slices `[start, end)` telescope. -/
theorem chunksAux_join (text : List Char) (L : Nat) (hL : 0 < L) :
    ∀ fuel start, text.length - start ≤ fuel →
      (chunksAux text L fuel start).flatten = text.drop start := by
  intro fuel
  induction fuel with
  | zero =>
      intro start h
      rw [chunksAux_of_le text L 0 start (by omega)]
      simp [List.drop_eq_nil_of_le (by omega : text.length ≤ start)]
  | succ f ih =>
      intro start h
      by_cases hs : start < text.length
      · unfold chunksAux
        rw [if_pos hs]
        have hgt := chunkStep_gt text L start hL hs
        rw [List.flatten_cons, ih (chunkStep text L start) (by omega)]
        have hdd : text.drop (chunkStep text L start) =
            (text.drop start).drop (chunkStep text L start - start) := by
          rw [List.drop_drop]
          congr 1
          omega
        rw [hdd, List.take_append_drop]
      · rw [chunksAux_of_le text L (f + 1) start (by omega)]
        simp [List.drop_eq_nil_of_le (by omega : text.length ≤ start)]

/-- C1: for every text `T` and every `maxLen L > 0`, concatenating in order
the chunks produced by the chunk-splitting loop of
`GET /generate-audio-stream` yields exactly `T`; for empty `T` the loop
yields zero chunks. -/
theorem split_join_eq (text : List Char) (L : Nat) (hL : 0 < L) :
    (split text L).flatten = text := by
  unfold split
  rw [chunksAux_join text L hL text.length 0 (by omega)]
  exact List.drop_zero text

/-- Witness for `split_join_eq` at the concrete text `"a.bc"`, `L = 2`. -/
theorem split_join_eq_witness :
    0 < 2 ∧ (split ['a', '.', 'b', 'c'] 2).flatten = ['a', '.', 'b', 'c'] :=
  ⟨by decide, split_join_eq ['a', '.', 'b', 'c'] 2 (by decide)⟩

/-- C2 fails on the code: with text `"a.b"` and `L = 1` the first chunk is
`"a."`, of length `2 > L`, because JS `lastIndexOf('.', end)` searches the
position `end` itself (its `fromIndex` is inclusive), so a period exactly at
`start + L` yields a cut at `start + L + 1`. -/
theorem split_chunk_length_cex :
    ¬ (∀ c ∈ split ['a', '.', 'b'] 1, c.length ≤ 1) := by decide

/-- Every chunk produced from any start offset has length at most `L + 1`. -/
theorem chunksAux_length_le (text : List Char) (L : Nat) :
    ∀ fuel start, ∀ c ∈ chunksAux text L fuel start, c.length ≤ L + 1 := by
  intro fuel
  induction fuel with
  | zero => intro start c hc; simp [chunksAux] at hc
  | succ f ih =>
      intro start c hc
      unfold chunksAux at hc
      split at hc
      · rcases List.mem_cons.mp hc with h | h
        · subst h
          have h1 := chunkStep_le text L start
          calc ((text.drop start).take (chunkStep text L start - start)).length
              ≤ chunkStep text L start - start := by
                rw [List.length_take]; omega
            _ ≤ L + 1 := by omega
        · exact ih (chunkStep text L start) c h
      · simp at hc

/-- C2 amended: every chunk produced by the chunk-splitting loop has length
at most `L + 1` (the bound `L` itself can be exceeded by exactly one
character, when a period sits exactly at offset `start + L`). -/
theorem split_chunk_length_le (text : List Char) (L : Nat) :
    ∀ c ∈ split text L, c.length ≤ L + 1 := by
  intro c hc
  exact chunksAux_length_le text L text.length 0 c hc

/-- Witness for `split_chunk_length_le`: the chunk `"a."` of
`split "a.b" 1` has length `≤ 2`. -/
theorem split_chunk_length_le_witness :
    ['a', '.'] ∈ split ['a', '.', 'b'] 1 ∧ (['a', '.'] : List Char).length ≤ 1 + 1 :=
  ⟨by decide, split_chunk_length_le ['a', '.', 'b'] 1 ['a', '.'] (by decide)⟩

/-- C9: the chunk-splitting loop terminates: whenever the loop body runs
(`start < text.length`), the next offset is strictly greater than `start`
(the punctuation cut lands strictly after `start`, and otherwise the hard
boundary `start + L` is used), so `text.length` iterations of fuel always
suffice — any fuel at least `text.length` produces the same chunk list. -/
theorem split_terminates (text : List Char) (L : Nat) (hL : 0 < L) :
    (∀ start, start < text.length → start < chunkStep text L start) ∧
    (∀ fuel, text.length ≤ fuel → chunksAux text L fuel 0 = split text L) := by
  constructor
  · intro start hs
    exact chunkStep_gt text L start hL hs
  · intro fuel hf
    exact chunksAux_fuel_stable text L hL fuel text.length 0 (by omega) (by omega)

/-- Witness for `split_terminates` at text `"a.b"`, `L = 1`, fuel `5`. -/
theorem split_terminates_witness :
    (0 : Nat) < chunkStep ['a', '.', 'b'] 1 0 ∧
      chunksAux ['a', '.', 'b'] 1 5 0 = split ['a', '.', 'b'] 1 :=
  ⟨(split_terminates ['a', '.', 'b'] 1 (by decide)).1 0 (by decide),
    (split_terminates ['a', '.', 'b'] 1 (by decide)).2 5 (by decide)⟩

/-! ## Scratch-file-system and registry lemmas -/

/-- Reading back a freshly written file yields what was written. -/
theorem fsRead_write_self (fs : FS) (p : TPath) (d : FileData) :
    fsRead (fsWrite fs p d) p = some d := by
  simp [fsRead, fsWrite, List.find?]

/-- `find?` by key ignores a filter that only discards another key. -/
theorem find?_filter_ne {α : Type} (l : List (TPath × α)) (p q : TPath) (h : q ≠ p) :
    (l.filter (fun e => e.1 ≠ p)).find? (fun e => e.1 = q) = l.find? (fun e => e.1 = q) := by
  rw [List.find?_filter]
  congr 1
  funext a
  by_cases ha : a.1 = q
  · simp [ha, h]
  · simp [ha]

/-- Writing one path does not change reads of another. -/
theorem fsRead_write_ne (fs : FS) (p q : TPath) (d : FileData) (h : q ≠ p) :
    fsRead (fsWrite fs p d) q = fsRead fs q := by
  simp only [fsRead, fsWrite]
  have h1 : ((p, d) :: fs.filter (fun e => e.1 ≠ p)).find? (fun e => e.1 = q) =
      (fs.filter (fun e => e.1 ≠ p)).find? (fun e => e.1 = q) :=
    List.find?_cons_of_neg _ (by simp [Ne.symm h])
  rw [h1, find?_filter_ne fs p q h]

/-- Membership in a written file system: the new pair or a surviving old one. -/
theorem mem_fsWrite {fs : FS} {p : TPath} {d : FileData} {e : TPath × FileData}
    (h : e ∈ fsWrite fs p d) : e = (p, d) ∨ e ∈ fs := by
  rcases List.mem_cons.mp h with h1 | h1
  · exact Or.inl h1
  · exact Or.inr (List.mem_filter.mp h1).1

/-- Membership after `unlinkSync`: still present, and not the removed path. -/
theorem mem_fsUnlink {fs : FS} {p : TPath} {e : TPath × FileData}
    (h : e ∈ fsUnlink fs p) : e ∈ fs ∧ e.1 ≠ p := by
  have := List.mem_filter.mp h
  exact ⟨this.1, by simpa using this.2⟩

/-- Membership after unlinking a whole list of paths. -/
theorem mem_foldl_fsUnlink {l : List TPath} {fs : FS} {e : TPath × FileData}
    (h : e ∈ l.foldl fsUnlink fs) : e ∈ fs ∧ e.1 ∉ l := by
  induction l generalizing fs with
  | nil => simpa using h
  | cons p rest ih =>
      have h1 := @ih (fsUnlink fs p) h
      have h2 := mem_fsUnlink h1.1
      refine ⟨h2.1, ?_⟩
      intro hc
      rcases List.mem_cons.mp hc with hc | hc
      · exact h2.2 hc
      · exact h1.2 hc

/-- A stored job is found under its id. -/
theorem regGet_set_self (m : Registry) (k : String) (v : StoredJob) :
    regGet (regSet m k v) k = some v := by
  simp [regGet, regSet, List.find?]

/-- `find?` by key ignores a filter that only discards another key
(registry version). -/
theorem regFind?_filter_ne (m : Registry) (p q : String) (h : q ≠ p) :
    (m.filter (fun e => e.1 ≠ p)).find? (fun e => e.1 = q) = m.find? (fun e => e.1 = q) := by
  rw [List.find?_filter]
  congr 1
  funext a
  by_cases ha : a.1 = q
  · simp [ha, h]
  · simp [ha]

/-- After `requests.delete(id)` the id is no longer found. -/
theorem regGet_delete_self (m : Registry) (k : String) :
    regGet (regDelete m k) k = none := by
  simp only [regGet, regDelete]
  have hnone : (m.filter (fun e => e.1 ≠ k)).find? (fun e => e.1 = k) = none := by
    rw [List.find?_eq_none]
    intro a ha
    have := (List.mem_filter.mp ha).2
    simp only [decide_eq_true_eq] at this ⊢
    simpa using this
  rw [hnone]
  rfl

/-! ## Synthesis-loop lemmas -/

/-- Every event the synthesis loop writes is a status update. -/
theorem synthLoop_events_status (provider : Provider) (voice : Option String) :
    ∀ (chs : List (List Char)) (i total : Nat) (fs : FS),
      ∀ e ∈ (synthLoop provider voice chs i total fs).1, e.isStatus = true := by
  intro chs
  induction chs with
  | nil => intro i total fs e he; simp [synthLoop] at he
  | cons ch rest ih =>
      intro i total fs e he
      unfold synthLoop at he
      cases hp : provider (mkTTSBody voice ch) with
      | error msg => rw [hp] at he; simp at he; simp [he, Event.isStatus]
      | ok buf =>
          rw [hp] at he
          simp only [List.mem_cons] at he
          rcases he with he | he
          · simp [he, Event.isStatus]
          · exact ih (i + 1) total (fsWrite fs (.chunk i) (.bytes buf)) e he

/-- Every request body the synthesis loop sends has model `tts-1`, the
effective voice, and no style-instructions key. -/
theorem synthLoop_requests_shape (provider : Provider) (voice : Option String) :
    ∀ (chs : List (List Char)) (i total : Nat) (fs : FS),
      ∀ r ∈ (synthLoop provider voice chs i total fs).2.1,
        r.model = "tts-1" ∧ r.voice = effVoice voice ∧ r.instructions = none := by
  intro chs
  induction chs with
  | nil => intro i total fs r hr; simp [synthLoop] at hr
  | cons ch rest ih =>
      intro i total fs r hr
      unfold synthLoop at hr
      cases hp : provider (mkTTSBody voice ch) with
      | error msg => rw [hp] at hr; simp at hr; simp [hr, mkTTSBody]
      | ok buf =>
          rw [hp] at hr
          simp only [List.mem_cons] at hr
          rcases hr with hr | hr
          · simp [hr, mkTTSBody]
          · exact ih (i + 1) total (fsWrite fs (.chunk i) (.bytes buf)) r hr

/-- On a fully successful synthesis loop, the temp files are exactly
`chunk_i, chunk_{i+1}, ...` in order and the request bodies are exactly the
chunks in order. -/
theorem synthLoop_success_shape (provider : Provider) (voice : Option String) :
    ∀ (chs : List (List Char)) (i total : Nat) (fs : FS),
      (synthLoop provider voice chs i total fs).2.2.2.2 = none →
        (synthLoop provider voice chs i total fs).2.2.2.1 =
            (List.range chs.length).map (fun k => TPath.chunk (i + k)) ∧
          (synthLoop provider voice chs i total fs).2.1 = chs.map (mkTTSBody voice) := by
  intro chs
  induction chs with
  | nil => intro i total fs _; simp [synthLoop]
  | cons ch rest ih =>
      intro i total fs hok
      cases hp : provider (mkTTSBody voice ch) with
      | error msg =>
          exfalso
          simp only [synthLoop, hp] at hok
          exact Option.noConfusion hok
      | ok buf =>
          simp only [synthLoop, hp] at hok ⊢
          have := ih (i + 1) total (fsWrite fs (.chunk i) (.bytes buf)) hok
          refine ⟨?_, ?_⟩
          · rw [this.1, List.length_cons, List.range_succ_eq_map, List.map_cons,
              List.map_map]
            refine congrArg₂ _ (by rw [Nat.add_zero]) ?_
            apply List.map_congr_left
            intro k _
            simp only [Function.comp_apply]
            exact congrArg TPath.chunk (by omega)
          · rw [this.2, List.map_cons]

/-- The synthesis loop only writes the files `chunk_m` with `m ≥ i`:
reads of every other path are unchanged. -/
theorem synthLoop_fs_preserve (provider : Provider) (voice : Option String) :
    ∀ (chs : List (List Char)) (i total : Nat) (fs : FS) (q : TPath),
      (∀ m, i ≤ m → q ≠ .chunk m) →
        fsRead (synthLoop provider voice chs i total fs).2.2.1 q = fsRead fs q := by
  intro chs
  induction chs with
  | nil => intro i total fs q _; simp [synthLoop]
  | cons ch rest ih =>
      intro i total fs q hq
      cases hp : provider (mkTTSBody voice ch) with
      | error msg => simp only [synthLoop, hp]
      | ok buf =>
          simp only [synthLoop, hp]
          rw [ih (i + 1) total _ q (fun m hm => hq m (by omega))]
          exact fsRead_write_ne fs (.chunk i) q (.bytes buf) (hq i (le_refl i))

/-- Every file present after the synthesis loop was present before it or is
one of the `tempFiles` the loop wrote. -/
theorem synthLoop_fs_mem (provider : Provider) (voice : Option String) :
    ∀ (chs : List (List Char)) (i total : Nat) (fs : FS) (e : TPath × FileData),
      e ∈ (synthLoop provider voice chs i total fs).2.2.1 →
        e ∈ fs ∨ e.1 ∈ (synthLoop provider voice chs i total fs).2.2.2.1 := by
  intro chs
  induction chs with
  | nil => intro i total fs e he; simp only [synthLoop] at he ⊢; exact Or.inl he
  | cons ch rest ih =>
      intro i total fs e he
      cases hp : provider (mkTTSBody voice ch) with
      | error msg =>
          simp only [synthLoop, hp] at he ⊢
          exact Or.inl he
      | ok buf =>
          simp only [synthLoop, hp] at he ⊢
          rcases ih (i + 1) total (fsWrite fs (.chunk i) (.bytes buf)) e he with h1 | h1
          · rcases mem_fsWrite h1 with h2 | h2
            · right; rw [h2]; exact List.mem_cons_self _ _
            · exact Or.inl h2
          · right; exact List.mem_cons_of_mem _ h1

/-- On a fully successful synthesis loop, the file written for the `k`-th
remaining chunk contains exactly the bytes the provider returned for that
chunk. -/
theorem synthLoop_read (provider : Provider) (voice : Option String) :
    ∀ (chs : List (List Char)) (i total : Nat) (fs : FS),
      (synthLoop provider voice chs i total fs).2.2.2.2 = none →
        ∀ k c, chs.get? k = some c →
          ∃ buf, provider (mkTTSBody voice c) = .ok buf ∧
            fsRead (synthLoop provider voice chs i total fs).2.2.1 (.chunk (i + k)) =
              some (.bytes buf) := by
  intro chs
  induction chs with
  | nil => intro i total fs _ k c hk; simp at hk
  | cons ch rest ih =>
      intro i total fs hok k c hk
      cases hp : provider (mkTTSBody voice ch) with
      | error msg =>
          exfalso
          simp only [synthLoop, hp] at hok
          exact Option.noConfusion hok
      | ok buf =>
          simp only [synthLoop, hp] at hok ⊢
          cases k with
          | zero =>
              simp only [List.get?_cons_zero, Option.some.injEq] at hk
              subst hk
              refine ⟨buf, hp, ?_⟩
              simp only [Nat.add_zero]
              rw [synthLoop_fs_preserve provider voice rest (i + 1) total _ (.chunk i)
                  (fun m hm => by simp; omega)]
              exact fsRead_write_self fs (.chunk i) (.bytes buf)
          | succ k' =>
              simp only [List.get?_cons_succ] at hk
              obtain ⟨buf', hp', hread⟩ :=
                ih (i + 1) total (fsWrite fs (.chunk i) (.bytes buf)) hok k' c hk
              refine ⟨buf', hp', ?_⟩
              rw [show i + (k' + 1) = i + 1 + k' by omega]
              exact hread

/-! ## Job-run lemmas -/

/-- Whatever the outcome, the provider requests of a job run are exactly
those the synthesis loop sent. -/
theorem runJob_requests (job : StoredJob) (provider : Provider)
    (ffmpegRes : Except String (List Nat)) (now : Nat) (fs0 : FS) :
    (runJob job provider ffmpegRes now fs0).requests =
      (synthLoop provider job.voice (split job.text chunkSize) 0
        (split job.text chunkSize).length fs0).2.1 := by
  cases herr : (synthLoop provider job.voice (split job.text chunkSize) 0
      (split job.text chunkSize).length fs0).2.2.2.2 with
  | some msg => simp only [runJob, herr]
  | none =>
      cases ffmpegRes with
      | error e => simp only [runJob, herr]
      | ok out => simp only [runJob, herr]

/-- Whatever the outcome, the temp-file list of a job run is exactly the
one the synthesis loop built. -/
theorem runJob_tempFiles (job : StoredJob) (provider : Provider)
    (ffmpegRes : Except String (List Nat)) (now : Nat) (fs0 : FS) :
    (runJob job provider ffmpegRes now fs0).tempFiles =
      (synthLoop provider job.voice (split job.text chunkSize) 0
        (split job.text chunkSize).length fs0).2.2.2.1 := by
  cases herr : (synthLoop provider job.voice (split job.text chunkSize) 0
      (split job.text chunkSize).length fs0).2.2.2.2 with
  | some msg => simp only [runJob, herr]
  | none =>
      cases ffmpegRes with
      | error e => simp only [runJob, herr]
      | ok out => simp only [runJob, herr]

/-- A falsy (absent or empty) voice falls back to `alloy`. -/
theorem effVoice_falsy (v : Option String) (h : falsyS v = true) :
    effVoice v = "alloy" := by
  cases v with
  | none => rfl
  | some s =>
      simp only [falsyS, decide_eq_true_eq] at h
      simp [effVoice, h]

/-- A falsy (absent or empty) requestId takes the 400 guard path. -/
theorem generateAudioStream_falsy (rid : Option String) (m : Registry)
    (provider : Provider) (ffmpegRes : Except String (List Nat)) (now : Nat)
    (fs0 : FS) (hf : falsyS rid = true) :
    generateAudioStream rid m provider ffmpegRes now fs0 =
      ⟨some 400, [.error "requestId parameter is required."], true, m, fs0, [], 0⟩ := by
  simp [generateAudioStream, hf]

/-- A non-empty requestId that is not in the registry takes the 404 path. -/
theorem generateAudioStream_notFound (id : String) (m : Registry)
    (provider : Provider) (ffmpegRes : Except String (List Nat)) (now : Nat)
    (fs0 : FS) (hne : id ≠ "") (hget : regGet m id = none) :
    generateAudioStream (some id) m provider ffmpegRes now fs0 =
      ⟨some 404, [.error "No data found for the given requestId."], true, m, fs0,
        [], 0⟩ := by
  have hf : falsyS (some id) = false := by simp [falsyS, hne]
  simp [generateAudioStream, hf, hget]

/-- A non-empty requestId found in the registry claims the job: the job is
deleted and the try/catch body runs on it. -/
theorem generateAudioStream_found (id : String) (m : Registry)
    (provider : Provider) (ffmpegRes : Except String (List Nat)) (now : Nat)
    (fs0 : FS) (job : StoredJob) (hne : id ≠ "") (hget : regGet m id = some job) :
    generateAudioStream (some id) m provider ffmpegRes now fs0 =
      ⟨none, (runJob job provider ffmpegRes now fs0).events,
        (runJob job provider ffmpegRes now fs0).ended, regDelete m id,
        (runJob job provider ffmpegRes now fs0).fs,
        (runJob job provider ffmpegRes now fs0).requests,
        (runJob job provider ffmpegRes now fs0).ffmpegCalls⟩ := by
  have hf : falsyS (some id) = false := by simp [falsyS, hne]
  simp [generateAudioStream, hf, hget]

/-- Every provider request of any stream execution has model `tts-1` and
carries no style-instructions key. -/
theorem stream_requests_shape (rid : Option String) (m : Registry)
    (provider : Provider) (ffmpegRes : Except String (List Nat)) (now : Nat)
    (fs0 : FS) :
    ∀ r ∈ (generateAudioStream rid m provider ffmpegRes now fs0).requests,
      r.model = "tts-1" ∧ r.instructions = none := by
  intro r hr
  by_cases hf : falsyS rid = true
  · rw [generateAudioStream_falsy rid m provider ffmpegRes now fs0 hf] at hr
    simp at hr
  · cases rid with
    | none => exact absurd rfl hf
    | some id =>
        have hne : id ≠ "" := by
          intro hc
          exact hf (by simp [falsyS, hc])
        cases hget : regGet m id with
        | none =>
            rw [generateAudioStream_notFound id m provider ffmpegRes now fs0 hne
              hget] at hr
            simp at hr
        | some job =>
            rw [generateAudioStream_found id m provider ffmpegRes now fs0 job hne
              hget] at hr
            rw [runJob_requests] at hr
            have := synthLoop_requests_shape provider job.voice
              (split job.text chunkSize) 0 (split job.text chunkSize).length fs0 r hr
            exact ⟨this.1, this.2.2⟩

/-! ## Claim theorems about the stream endpoints -/

/-- C4: for every progress stream opened with a stored requestId, the event
sequence is some number of Status events followed by exactly one terminal
event (Error or Result), with nothing after it, and the channel is ended
immediately after the terminal event. -/
theorem stream_terminal_event_unique (m : Registry) (id : String) (job : StoredJob)
    (provider : Provider) (ffmpegRes : Except String (List Nat)) (now : Nat)
    (fs0 : FS) (hjob : regGet m id = some job) :
    ∃ ss t, (generateAudioStream (some id) m provider ffmpegRes now fs0).events =
        ss ++ [t] ∧
      (∀ e ∈ ss, e.isStatus = true) ∧ t.isTerminal = true ∧
      (generateAudioStream (some id) m provider ffmpegRes now fs0).ended = true := by
  by_cases hne : id = ""
  · subst hne
    rw [generateAudioStream_falsy (some "") m provider ffmpegRes now fs0 rfl]
    refine ⟨[], .error "requestId parameter is required.", rfl, ?_, rfl, rfl⟩
    intro e he
    simp at he
  · rw [generateAudioStream_found id m provider ffmpegRes now fs0 job hne hjob]
    have hstat := synthLoop_events_status provider job.voice (split job.text chunkSize) 0
      (split job.text chunkSize).length fs0
    cases herr : (synthLoop provider job.voice (split job.text chunkSize) 0
        (split job.text chunkSize).length fs0).2.2.2.2 with
    | some msg =>
        refine ⟨Event.status "Splitting text into chunks..." ::
            (synthLoop provider job.voice (split job.text chunkSize) 0
              (split job.text chunkSize).length fs0).1,
          Event.error "Failed to generate audio.", ?_, ?_, rfl, ?_⟩
        · simp only [runJob, herr]
        · intro e he
          rcases List.mem_cons.mp he with h | h
          · rw [h]; rfl
          · exact hstat e h
        · simp only [runJob, herr]
    | none =>
        cases ffmpegRes with
        | error msg =>
            refine ⟨Event.status "Splitting text into chunks..." ::
                ((synthLoop provider job.voice (split job.text chunkSize) 0
                  (split job.text chunkSize).length fs0).1 ++
                    [Event.status "Concatenating audio files..."]),
              Event.error "Failed to generate audio.", ?_, ?_, rfl, ?_⟩
            · simp only [runJob, herr]
              simp
            · intro e he
              rcases List.mem_cons.mp he with h | h
              · rw [h]; rfl
              · rcases List.mem_append.mp h with h1 | h1
                · exact hstat e h1
                · rcases List.mem_singleton.mp h1 with h2
                  rw [h2]; rfl
            · simp only [runJob, herr]
        | ok out =>
            refine ⟨Event.status "Splitting text into chunks..." ::
                ((synthLoop provider job.voice (split job.text chunkSize) 0
                  (split job.text chunkSize).length fs0).1 ++
                    [Event.status "Concatenating audio files...",
                      Event.status "Audio generated successfully."]),
              Event.result job.title out, ?_, ?_, rfl, ?_⟩
            · simp only [runJob, herr]
              simp
            · intro e he
              rcases List.mem_cons.mp he with h | h
              · rw [h]; rfl
              · rcases List.mem_append.mp h with h1 | h1
                · exact hstat e h1
                · rcases List.mem_cons.mp h1 with h2 | h2
                  · rw [h2]; rfl
                  · rcases List.mem_singleton.mp h2 with h3
                    rw [h3]; rfl
            · simp only [runJob, herr]

/-- Witness for `stream_terminal_event_unique` on the one-job registry
`[("id1", ⟨"t", "a", none⟩)]` with an always-succeeding provider. -/
theorem stream_terminal_event_unique_witness :
    regGet [("id1", (⟨"t", ['a'], none⟩ : StoredJob))] "id1" =
        some (⟨"t", ['a'], none⟩ : StoredJob) ∧
      ∃ ss t, (generateAudioStream (some "id1") [("id1", ⟨"t", ['a'], none⟩)]
          (fun _ => Except.ok [1]) (Except.ok [9]) 0 []).events = ss ++ [t] ∧
        (∀ e ∈ ss, e.isStatus = true) ∧ t.isTerminal = true ∧
        (generateAudioStream (some "id1") [("id1", ⟨"t", ['a'], none⟩)]
          (fun _ => Except.ok [1]) (Except.ok [9]) 0 []).ended = true :=
  ⟨by decide,
    stream_terminal_event_unique [("id1", ⟨"t", ['a'], none⟩)] "id1" ⟨"t", ['a'], none⟩
      (fun _ => Except.ok [1]) (Except.ok [9]) 0 [] (by decide)⟩

/-- C3: a job stored by the submit endpoint is consumed at most once: the
first progress-stream request with its id removes it from the registry and
runs exactly that job's data, and any subsequent request with the same id
gets the `"No data found for the given requestId."` error outcome (which
also leaves the registry unchanged, so every later request gets it too).
The id parameter abstracts the generation
`Date.now().toString() + Math.random().toString(36).substring(2)`
(src/server.js line 46), which always yields a non-empty string; the
hypothesis `reqId ≠ ""` records exactly that scope. -/
theorem registry_at_most_once (body : SubmitBody) (reqId : String) (m : Registry)
    (hvalid : (falsyS body.title || falsyT body.text) = false)
    (hreq : reqId ≠ "") :
    (initiateAudioGeneration body reqId m).1 = .ok reqId ∧
    regGet (initiateAudioGeneration body reqId m).2 reqId =
      some ⟨body.title.getD "", body.text.getD [], body.voice⟩ ∧
    ∀ provider ffmpegRes now fs0,
      (generateAudioStream (some reqId) (initiateAudioGeneration body reqId m).2
          provider ffmpegRes now fs0).registry =
        regDelete (initiateAudioGeneration body reqId m).2 reqId ∧
      (generateAudioStream (some reqId) (initiateAudioGeneration body reqId m).2
          provider ffmpegRes now fs0).events =
        (runJob ⟨body.title.getD "", body.text.getD [], body.voice⟩ provider
          ffmpegRes now fs0).events ∧
      ∀ provider' ffmpegRes' now' fs0',
        (generateAudioStream (some reqId)
            (generateAudioStream (some reqId) (initiateAudioGeneration body reqId m).2
              provider ffmpegRes now fs0).registry
            provider' ffmpegRes' now' fs0').events =
          [.error "No data found for the given requestId."] ∧
        (generateAudioStream (some reqId)
            (generateAudioStream (some reqId) (initiateAudioGeneration body reqId m).2
              provider ffmpegRes now fs0).registry
            provider' ffmpegRes' now' fs0').registry =
          (generateAudioStream (some reqId) (initiateAudioGeneration body reqId m).2
            provider ffmpegRes now fs0).registry ∧
        (generateAudioStream (some reqId)
            (generateAudioStream (some reqId) (initiateAudioGeneration body reqId m).2
              provider ffmpegRes now fs0).registry
            provider' ffmpegRes' now' fs0').requests = [] := by
  have hinit : initiateAudioGeneration body reqId m =
      (.ok reqId, regSet m reqId ⟨body.title.getD "", body.text.getD [], body.voice⟩) := by
    simp [initiateAudioGeneration, hvalid]
  rw [hinit]
  have hget := regGet_set_self m reqId ⟨body.title.getD "", body.text.getD [], body.voice⟩
  refine ⟨rfl, hget, ?_⟩
  intro provider ffmpegRes now fs0
  rw [generateAudioStream_found reqId
    (regSet m reqId ⟨body.title.getD "", body.text.getD [], body.voice⟩) provider
    ffmpegRes now fs0 ⟨body.title.getD "", body.text.getD [], body.voice⟩ hreq hget]
  have hnone := regGet_delete_self
    (regSet m reqId ⟨body.title.getD "", body.text.getD [], body.voice⟩) reqId
  refine ⟨rfl, rfl, ?_⟩
  intro provider' ffmpegRes' now' fs0'
  rw [generateAudioStream_notFound reqId
    (regDelete (regSet m reqId ⟨body.title.getD "", body.text.getD [], body.voice⟩) reqId)
    provider' ffmpegRes' now' fs0' hreq hnone]
  exact ⟨rfl, rfl, rfl⟩

/-- Witness for `registry_at_most_once` on the submission
`{title: "t", text: "hi."}` against an empty registry. -/
theorem registry_at_most_once_witness :
    (falsyS (some "t") || falsyT (some ['h', 'i', '.'])) = false ∧ "id1" ≠ "" ∧
      (initiateAudioGeneration ⟨some "t", some ['h', 'i', '.'], none, none, none⟩
        "id1" []).1 = .ok "id1" :=
  ⟨by decide, by decide,
    (registry_at_most_once ⟨some "t", some ['h', 'i', '.'], none, none, none⟩ "id1" []
      (by decide) (by decide)).1⟩

/-- C5 fails on the code as stated: a progress-stream request with a
*missing* requestId is answered with the event payload
`{"error": "requestId parameter is required."}` (src/server.js line 65),
not with `{"error": "No data found for the given requestId."}`. -/
theorem no_data_message_cex :
    (generateAudioStream none [] (fun _ => Except.ok []) (Except.ok []) 0 []).events ≠
      [Event.error "No data found for the given requestId."] := by decide

/-- C5 amended: a falsy requestId — absent, or the empty string of the
wire-reachable `?requestId=` (the JS guard `if (!requestId)` at
src/server.js line 63 fires on both) — yields the single immediate error
event `"requestId parameter is required."` (HTTP 400); a non-empty
requestId not present in the registry yields the single immediate error
event `"No data found for the given requestId."` (HTTP 404).  In both
cases the stream is closed at once, no provider request is made and FFmpeg
is never spawned. -/
theorem guard_paths (m : Registry) (provider : Provider)
    (ffmpegRes : Except String (List Nat)) (now : Nat) (fs0 : FS) :
    (∀ rid : Option String, falsyS rid = true →
      (generateAudioStream rid m provider ffmpegRes now fs0).events =
          [.error "requestId parameter is required."] ∧
        (generateAudioStream rid m provider ffmpegRes now fs0).httpStatus =
          some 400 ∧
        (generateAudioStream rid m provider ffmpegRes now fs0).ended = true ∧
        (generateAudioStream rid m provider ffmpegRes now fs0).requests = [] ∧
        (generateAudioStream rid m provider ffmpegRes now fs0).ffmpegCalls = 0) ∧
    ∀ id, id ≠ "" → regGet m id = none →
      (generateAudioStream (some id) m provider ffmpegRes now fs0).events =
          [.error "No data found for the given requestId."] ∧
        (generateAudioStream (some id) m provider ffmpegRes now fs0).httpStatus =
          some 404 ∧
        (generateAudioStream (some id) m provider ffmpegRes now fs0).ended = true ∧
        (generateAudioStream (some id) m provider ffmpegRes now fs0).requests = [] ∧
        (generateAudioStream (some id) m provider ffmpegRes now fs0).ffmpegCalls = 0 := by
  constructor
  · intro rid hf
    rw [generateAudioStream_falsy rid m provider ffmpegRes now fs0 hf]
    exact ⟨rfl, rfl, rfl, rfl, rfl⟩
  · intro id hne hid
    rw [generateAudioStream_notFound id m provider ffmpegRes now fs0 hne hid]
    exact ⟨rfl, rfl, rfl, rfl, rfl⟩

/-- Witness for `guard_paths`: the wire-reachable empty-string requestId
`?requestId=` (falsy, hence the 400 "required" message) and the unknown
non-empty id `"x"` (the 404 "No data found" message), both on the empty
registry. -/
theorem guard_paths_witness :
    falsyS (some "") = true ∧
      (generateAudioStream (some "") [] (fun _ => Except.ok []) (Except.ok []) 0
          []).events = [.error "requestId parameter is required."] ∧
      ("x" ≠ "" ∧ regGet [] "x" = none) ∧
      (generateAudioStream (some "x") [] (fun _ => Except.ok []) (Except.ok []) 0
          []).events = [.error "No data found for the given requestId."] :=
  ⟨by decide,
    ((guard_paths [] (fun _ => Except.ok []) (Except.ok []) 0 []).1 (some "")
      (by decide)).1,
    ⟨by decide, by decide⟩,
    ((guard_paths [] (fun _ => Except.ok []) (Except.ok []) 0 []).2 "x" (by decide)
      (by decide)).1⟩

/-- C6 fails on the code: on the failure path no cleanup is performed.
Concretely, for the job `⟨"t", "a", none⟩` whose single chunk synthesizes
fine but whose FFmpeg invocation exits nonzero, the terminal event is the
error event, yet the scratch file system still holds the segment file
`chunk_0.mp3` and the manifest `filelist.txt` (the catch block of
src/server.js lines 181-185 removes nothing). -/
theorem cleanup_cex :
    (runJob ⟨"t", ['a'], none⟩ (fun _ => Except.ok [1]) (Except.error "ffmpeg 1") 0
        []).events.getLast? = some (Event.error "Failed to generate audio.") ∧
      (runJob ⟨"t", ['a'], none⟩ (fun _ => Except.ok [1]) (Except.error "ffmpeg 1") 0
        []).fs ≠ [] := by decide

/-- C6 amended: temporary artifacts are all removed on the *success* path
(when every synthesis call succeeded and FFmpeg exited 0, a job started on
an empty scratch directory ends with an empty scratch directory); on the
failure path the artifacts written before the failure are left behind. -/
theorem cleanup_on_success (job : StoredJob) (provider : Provider) (out : List Nat)
    (now : Nat)
    (hok : (synthLoop provider job.voice (split job.text chunkSize) 0
      (split job.text chunkSize).length []).2.2.2.2 = none) :
    (runJob job provider (Except.ok out) now []).fs = [] := by
  simp only [runJob, hok]
  rw [List.eq_nil_iff_forall_not_mem]
  intro e he
  have h1 := mem_fsUnlink he
  have h2 := mem_fsUnlink h1.1
  have h3 := mem_foldl_fsUnlink h2.1
  rcases mem_fsWrite h3.1 with h4 | h4
  · exact h1.2 (by rw [h4])
  · rcases mem_fsWrite h4 with h5 | h5
    · exact h2.2 (by rw [h5])
    · rcases synthLoop_fs_mem provider job.voice (split job.text chunkSize) 0
        (split job.text chunkSize).length [] e h5 with h6 | h6
      · simp at h6
      · exact h3.2 h6

/-- Witness for `cleanup_on_success` on the one-chunk job `⟨"t", "a", none⟩`
with an always-succeeding provider and FFmpeg. -/
theorem cleanup_on_success_witness :
    (synthLoop (fun _ => Except.ok [1]) (StoredJob.mk "t" ['a'] none).voice
        (split (StoredJob.mk "t" ['a'] none).text chunkSize) 0
        (split (StoredJob.mk "t" ['a'] none).text chunkSize).length []).2.2.2.2 =
        none ∧
      (runJob ⟨"t", ['a'], none⟩ (fun _ => Except.ok [1]) (Except.ok [9]) 0 []).fs =
        [] :=
  ⟨by decide,
    cleanup_on_success ⟨"t", ['a'], none⟩ (fun _ => Except.ok [1]) [9] 0 (by decide)⟩

/-- C7: chunk order is preserved end-to-end.  When every synthesis call of a
job succeeds, the `tempFiles` list is `chunk_0, chunk_1, ...` in chunk
order, the i-th provider request carries the i-th chunk of the split text,
the file written for the i-th chunk holds exactly the bytes the provider
returned for the i-th chunk, and the i-th manifest line handed to FFmpeg
references the i-th segment file. -/
theorem chunk_order_preserved (job : StoredJob) (provider : Provider)
    (ffmpegRes : Except String (List Nat)) (now : Nat) (fs0 : FS)
    (hok : (synthLoop provider job.voice (split job.text chunkSize) 0
      (split job.text chunkSize).length fs0).2.2.2.2 = none) :
    (runJob job provider ffmpegRes now fs0).tempFiles =
        (List.range (split job.text chunkSize).length).map TPath.chunk ∧
      (runJob job provider ffmpegRes now fs0).requests =
        (split job.text chunkSize).map (mkTTSBody job.voice) ∧
      (∀ k c, (split job.text chunkSize).get? k = some c →
        ∃ buf, provider (mkTTSBody job.voice c) = .ok buf ∧
          fsRead (synthLoop provider job.voice (split job.text chunkSize) 0
              (split job.text chunkSize).length fs0).2.2.1 (.chunk k) =
            some (.bytes buf)) ∧
      manifestLines (runJob job provider ffmpegRes now fs0).tempFiles =
        (List.range (split job.text chunkSize).length).map
          (fun i => "file \x27" ++ (TPath.chunk i).render ++ "\x27") := by
  have hshape := synthLoop_success_shape provider job.voice (split job.text chunkSize)
    0 (split job.text chunkSize).length fs0 hok
  have htemps : (runJob job provider ffmpegRes now fs0).tempFiles =
      (List.range (split job.text chunkSize).length).map TPath.chunk := by
    rw [runJob_tempFiles, hshape.1]
    apply List.map_congr_left
    intro k _
    rw [Nat.zero_add]
  refine ⟨htemps, ?_, ?_, ?_⟩
  · rw [runJob_requests, hshape.2]
  · intro k c hk
    have := synthLoop_read provider job.voice (split job.text chunkSize) 0
      (split job.text chunkSize).length fs0 hok k c hk
    simpa [Nat.zero_add] using this
  · rw [htemps]
    unfold manifestLines
    rw [List.map_map]
    rfl

/-- Witness for `chunk_order_preserved` on the one-chunk job
`⟨"t", "a", none⟩` with an always-succeeding provider. -/
theorem chunk_order_preserved_witness :
    (synthLoop (fun _ => Except.ok [1]) (StoredJob.mk "t" ['a'] none).voice
        (split (StoredJob.mk "t" ['a'] none).text chunkSize) 0
        (split (StoredJob.mk "t" ['a'] none).text chunkSize).length []).2.2.2.2 =
        none ∧
      (runJob ⟨"t", ['a'], none⟩ (fun _ => Except.ok [1]) (Except.ok [9]) 0
          []).tempFiles =
        (List.range (split ['a'] chunkSize).length).map TPath.chunk :=
  ⟨by decide,
    (chunk_order_preserved ⟨"t", ['a'], none⟩ (fun _ => Except.ok [1])
      (Except.ok [9]) 0 [] (by decide)).1⟩

/-- C8 fails on the code as stated: submit a job whose model is
`gpt-4o-mini-tts` — a model that supports free-form style directives — with
style instructions present; the provider requests of its execution carry no
instructions (the submit handler of src/server.js line 40 destructures only
`{title, text, voice}`, so the instructions are dropped even for a
supporting model). -/
theorem style_forwarding_cex :
    ¬ (∀ r ∈ (generateAudioStream (some "id1")
          (initiateAudioGeneration
            ⟨some "t", some ['a'], none, some "gpt-4o-mini-tts", some "cheerful"⟩
            "id1" []).2
          (fun _ => Except.ok [1]) (Except.ok [9]) 0 []).requests,
        r.instructions.isSome = supportsStyleDirectives "gpt-4o-mini-tts") := by
  decide

/-- C8 amended: style instructions are never forwarded to the synthesis
provider, whatever model the submission selects (they are dropped at
submission time), and this is silent: a submission with style instructions
and valid title/text still succeeds. -/
theorem style_instructions_never_forwarded (body : SubmitBody) (reqId : String)
    (m : Registry) (provider : Provider) (ffmpegRes : Except String (List Nat))
    (now : Nat) (fs0 : FS) (s : String)
    (hstyle : body.styleInstructions = some s)
    (hvalid : (falsyS body.title || falsyT body.text) = false) :
    (initiateAudioGeneration body reqId m).1 = .ok reqId ∧
      ∀ r ∈ (generateAudioStream (some reqId) (initiateAudioGeneration body reqId m).2
          provider ffmpegRes now fs0).requests, r.instructions = none := by
  constructor
  · simp [initiateAudioGeneration, hvalid]
  · intro r hr
    exact (stream_requests_shape (some reqId) (initiateAudioGeneration body reqId m).2
      provider ffmpegRes now fs0 r hr).2

/-- Witness for `style_instructions_never_forwarded` on the submission
`{title: "t", text: "a", model: "gpt-4o-mini-tts", styleInstructions: "x"}`. -/
theorem style_instructions_never_forwarded_witness :
    (⟨some "t", some ['a'], none, some "gpt-4o-mini-tts", some "x"⟩ :
        SubmitBody).styleInstructions = some "x" ∧
      (initiateAudioGeneration
        ⟨some "t", some ['a'], none, some "gpt-4o-mini-tts", some "x"⟩ "id1" []).1 =
        .ok "id1" :=
  ⟨by decide,
    (style_instructions_never_forwarded
      ⟨some "t", some ['a'], none, some "gpt-4o-mini-tts", some "x"⟩ "id1" []
      (fun _ => Except.ok [1]) (Except.ok [9]) 0 [] "x" (by decide) (by decide)).1⟩

/-- C10: every synthesis request of every stream execution uses the fixed
model `tts-1`, every run of a job whose stored voice is absent or empty
uses the default voice `alloy`, and two submissions that agree on title,
text and voice — differing arbitrarily in their `model` or
`styleInstructions` fields — give rise to identical provider request
sequences: the submitted model never influences the provider calls. -/
theorem synthesis_request_noninterference (b1 b2 : SubmitBody) (reqId : String)
    (m : Registry) (provider : Provider) (ffmpegRes : Except String (List Nat))
    (now : Nat) (fs0 : FS)
    (ht : b1.title = b2.title) (hx : b1.text = b2.text) (hv : b1.voice = b2.voice) :
    (generateAudioStream (some reqId) (initiateAudioGeneration b1 reqId m).2 provider
          ffmpegRes now fs0).requests =
        (generateAudioStream (some reqId) (initiateAudioGeneration b2 reqId m).2
          provider ffmpegRes now fs0).requests ∧
      (∀ r ∈ (generateAudioStream (some reqId) (initiateAudioGeneration b1 reqId m).2
          provider ffmpegRes now fs0).requests, r.model = "tts-1") ∧
      ∀ (job : StoredJob) (provider' : Provider)
        (ffmpegRes' : Except String (List Nat)) (now' : Nat) (fs0' : FS),
        falsyS job.voice = true →
          ∀ r ∈ (runJob job provider' ffmpegRes' now' fs0').requests,
            r.voice = "alloy" := by
  have hinit : initiateAudioGeneration b1 reqId m =
      initiateAudioGeneration b2 reqId m := by
    simp only [initiateAudioGeneration, ht, hx, hv]
  refine ⟨by rw [hinit], ?_, ?_⟩
  · intro r hr
    exact (stream_requests_shape (some reqId) (initiateAudioGeneration b1 reqId m).2
      provider ffmpegRes now fs0 r hr).1
  · intro job provider' ffmpegRes' now' fs0' hfalsy r hr
    rw [runJob_requests] at hr
    have := synthLoop_requests_shape provider' job.voice (split job.text chunkSize) 0
      (split job.text chunkSize).length fs0' r hr
    rw [this.2.1, effVoice_falsy job.voice hfalsy]

/-- Witness for `synthesis_request_noninterference`: submissions differing
only in model and style instructions, and the empty-voice job. -/
theorem synthesis_request_noninterference_witness :
    (generateAudioStream (some "id1")
          (initiateAudioGeneration ⟨some "t", some ['a'], none, some "tts-1", none⟩
            "id1" []).2 (fun _ => Except.ok [1]) (Except.ok [9]) 0 []).requests =
        (generateAudioStream (some "id1")
          (initiateAudioGeneration
            ⟨some "t", some ['a'], none, some "gpt-4o-mini-tts", some "x"⟩ "id1"
            []).2 (fun _ => Except.ok [1]) (Except.ok [9]) 0 []).requests ∧
      falsyS (StoredJob.mk "t" ['a'] (some "")).voice = true ∧
      ∀ r ∈ (runJob ⟨"t", ['a'], some ""⟩ (fun _ => Except.ok [1]) (Except.ok [9]) 0
          []).requests, r.voice = "alloy" :=
  ⟨(synthesis_request_noninterference ⟨some "t", some ['a'], none, some "tts-1", none⟩
      ⟨some "t", some ['a'], none, some "gpt-4o-mini-tts", some "x"⟩ "id1" []
      (fun _ => Except.ok [1]) (Except.ok [9]) 0 [] rfl rfl rfl).1,
    by decide,
    (synthesis_request_noninterference ⟨some "t", some ['a'], none, some "tts-1", none⟩
      ⟨some "t", some ['a'], none, some "gpt-4o-mini-tts", some "x"⟩ "id1" []
      (fun _ => Except.ok [1]) (Except.ok [9]) 0 [] rfl rfl rfl).2.2
      ⟨"t", ['a'], some ""⟩ (fun _ => Except.ok [1]) (Except.ok [9]) 0 [] (by decide)⟩

end TTS
